import Mathlib

/-!
# Call marshalling of the `react` package (`helpers.go`)

The functions of `helpers.go` do nothing but talk to the JavaScript host
through the methods of `*js.Object` (`Get`, `Set`, `Call`, `Invoke`,
`Index`, `Length`, `String`, `Int`).  The host is therefore a parameter of
the embedding: a record of state-passing functions, one per method, each of
which either answers or throws.  Every function of the package is a program
in a small monad that threads the host state, stops at the first panic, and
logs every host operation together with the host's answer.  The log is ghost
state: it exists only so that the theorems can speak about which host
operations were performed, in which order and with which arguments.
-/

namespace react

/-! ## Values -/

/-- A `*js.Object`: a reference into the host's object graph. -/
abbrev Obj := Nat

/-- Go values of type `interface{}` that cross the boundary.  `forwardRefFn c`
is the function literal built inside `ForwardRef(c)`: a closure whose only
captured variable is `component`. -/
inductive Val where
  | nil
  | str (s : String)
  | int (n : Int)
  | obj (o : Obj)
  | map (kvs : List (String × Val))
  | fn (id : Nat)
  | forwardRefFn (component : Val)

/-- The value that `recover()` returns for a panic raised by a host operation:
a `*js.Error` (a thrown JavaScript exception, wrapping the thrown object) or
a value of any other type, such as a `runtime.Error`, told apart by a number.
Such a value is not `nil`: a throw that reaches `recover()` as `nil` is not
a panic in this sense and is outside the embedding. -/
inductive PanicVal where
  | jsError (e : Obj)
  | other (tag : Nat)

/-- Assignment `m[k] = v` on a Go `map[string]interface{}`, kept as an
association list with unique keys. -/
def mapSet : List (String × Val) → String → Val → List (String × Val)
  | [], k, v => [(k, v)]
  | (k0, v0) :: rest, k, v =>
    if k0 = k then (k, v) :: rest else (k0, v0) :: mapSet rest k v

/-! ## The host and the log of host operations -/

/-- One method call on a `*js.Object`. -/
inductive HostOp where
  | get (o : Obj) (key : String)
  | set (o : Obj) (key : String) (v : Val)
  | call (o : Obj) (method : String) (args : List Val)
  | invoke (o : Obj) (args : List Val)
  | index (o : Obj) (i : Int)
  | length (o : Obj)
  | string (o : Obj)
  | int (o : Obj)

/-- What the host answered to one operation. -/
inductive Reply where
  | obj (o : Obj)
  | int (n : Int)
  | str (s : String)
  | unit
  | threw (p : PanicVal)

/-- A logged host operation with the host's answer. -/
structure Event where
  op : HostOp
  reply : Reply

/-- The JavaScript host: for every method of `*js.Object` a function of the
host state that returns the answer (or the panic it raises) and the next
host state. -/
structure Host (σ : Type) where
  get : Obj → String → σ → Except PanicVal Obj × σ
  set : Obj → String → Val → σ → Except PanicVal Unit × σ
  call : Obj → String → List Val → σ → Except PanicVal Obj × σ
  invoke : Obj → List Val → σ → Except PanicVal Obj × σ
  index : Obj → Int → σ → Except PanicVal Obj × σ
  length : Obj → σ → Except PanicVal Int × σ
  string : Obj → σ → Except PanicVal String × σ
  int : Obj → σ → Except PanicVal Int × σ

/-- How a Go function call ends: it returns, it panics, or (for the model of
a loop) the fuel ran out before the loop ended. -/
inductive Outcome (α : Type) where
  | ok (a : α)
  | panic (p : PanicVal)
  | diverge

/-- The result of running a program: how it ended, the host state it left, and
the host operations it performed, oldest first. -/
structure Run (σ α : Type) where
  out : Outcome α
  state : σ
  log : List Event

/-- Programs over a host with state `σ`. -/
def M (σ α : Type) : Type := σ → Run σ α

namespace M

/-- Return without touching the host. -/
def ret {σ α : Type} (a : α) : M σ α := fun s => ⟨.ok a, s, []⟩

/-- Sequencing: the second program runs only if the first returned. -/
def andThen {σ α β : Type} (m : M σ α) (f : α → M σ β) : M σ β := fun s =>
  match m s with
  | ⟨.ok a, s1, l1⟩ =>
    match f a s1 with
    | ⟨o, s2, l2⟩ => ⟨o, s2, l1 ++ l2⟩
  | ⟨.panic p, s1, l1⟩ => ⟨.panic p, s1, l1⟩
  | ⟨.diverge, s1, l1⟩ => ⟨.diverge, s1, l1⟩

/-- The fuel of a loop is used up. -/
def outOfFuel {σ α : Type} : M σ α := fun s => ⟨.diverge, s, []⟩

/-- One host operation: ask the host, log the operation and the answer, and
return the answer or panic with what the host threw. -/
def perform {σ α : Type} (op : HostOp) (toReply : α → Reply)
    (f : σ → Except PanicVal α × σ) : M σ α := fun s =>
  match f s with
  | (.ok a, s1) => ⟨.ok a, s1, [⟨op, toReply a⟩]⟩
  | (.error p, s1) => ⟨.panic p, s1, [⟨op, .threw p⟩]⟩

end M

instance {σ : Type} : Monad (M σ) where
  pure := M.ret
  bind := M.andThen

/-- The package's surroundings: the package variable `React`, `js.Global`,
and the package's props normaliser `SToMap`, whose declaration is in another
file of the package; it is taken as an arbitrary function of the props. -/
structure Env where
  React : Obj
  Global : Obj
  SToMap : Val → Val

section Methods
variable {σ : Type} (H : Host σ)

/-- Method `o.Get(key)`. -/
def jsGet (o : Obj) (key : String) : M σ Obj :=
  M.perform (.get o key) .obj (H.get o key)

/-- Method `o.Set(key, v)`. -/
def jsSet (o : Obj) (key : String) (v : Val) : M σ Unit :=
  M.perform (.set o key v) (fun _ => .unit) (H.set o key v)

/-- Method `o.Call(method, args...)`. -/
def jsCall (o : Obj) (method : String) (args : List Val) : M σ Obj :=
  M.perform (.call o method args) .obj (H.call o method args)

/-- Method `o.Invoke(args...)`. -/
def jsInvoke (o : Obj) (args : List Val) : M σ Obj :=
  M.perform (.invoke o args) .obj (H.invoke o args)

/-- Method `o.Index(i)`. -/
def jsIndex (o : Obj) (i : Int) : M σ Obj :=
  M.perform (.index o i) .obj (H.index o i)

/-- Method `o.Length()`. -/
def jsLength (o : Obj) : M σ Int :=
  M.perform (.length o) .int (H.length o)

/-- Method `o.String()`. -/
def jsString (o : Obj) : M σ String :=
  M.perform (.string o) .str (H.string o)

/-- Method `o.Int()`. -/
def jsInt (o : Obj) : M σ Int :=
  M.perform (.int o) .int (H.int o)

/-! ## The functions of `helpers.go` -/

/-- `JSX(component, props, children...)`. -/
def JSX (env : Env) (component props : Val) (children : List Val) : M σ Obj :=
  let args := [component, env.SToMap props]
  let args := if children.length > 0 then args ++ children else args
  jsCall H env.React "createElement" args

/-- `CloneElement(element, props, children...)`. -/
def CloneElement (env : Env) (element props : Val) (children : List Val) : M σ Obj :=
  let args := [element, env.SToMap props]
  let args := if children.length > 0 then args ++ children else args
  jsCall H env.React "cloneElement" args

/-- `Fragment(key, children...)`; `key` is a `*string`, `none` being `nil`. -/
def Fragment (env : Env) (key : Option String) (children : List Val) : M σ Obj :=
  let props : List (String × Val) := []
  let props := match key with
    | some k => mapSet props "key" (.str k)
    | none => props
  do
    let c ← jsGet H env.React "Fragment"
    JSX H env (.obj c) (.map props) children

/-- `Profiler(id, onRender, children...)`; `onRender` is a function value,
`none` being the `nil` function. -/
def Profiler (env : Env) (id : String) (onRender : Option Nat) (children : List Val) :
    M σ Obj :=
  let props : List (String × Val) := [("id", .str id)]
  let props := match onRender with
    | some f => mapSet props "onRender" (.fn f)
    | none => props
  do
    let c ← jsGet H env.React "Profiler"
    JSX H env (.obj c) (.map props) children

/-- The loop of `JSFn`: `for idx := 0; idx < splits.Length(); idx++`.  One unit
of fuel is spent on each test of the loop condition.  `idx` and the lengths are
Go `int`s; `idx` stays between `0` and a length the host returned, so no
operation on it wraps. -/
def JSFn.loop (splits : Obj) (args : List Val) : Nat → Int → Obj → M σ Obj
  | 0, _, _ => M.outOfFuel
  | fuel + 1, idx, out => do
    let len ← jsLength H splits
    if idx < len then
      let e ← jsIndex H splits idx
      let split ← jsString H e
      let len2 ← jsLength H splits
      let out2 ← if idx = len2 - 1 then jsCall H out split args else jsGet H out split
      JSFn.loop splits args fuel (idx + 1) out2
    else
      pure out

/-- The body of `JSFn` (lines 75 to 87): what runs under the deferred
function. -/
def JSFn.body (env : Env) (fuel : Nat) (funcName : String) (args : List Val) : M σ Obj := do
  let out := env.Global
  let ctor ← jsGet H env.Global "String"
  let str ← jsInvoke H ctor [.str funcName]
  let splits ← jsCall H str "split" [.str "."]
  JSFn.loop H splits args fuel 0 out

/-- The results of `JSFn`: the unnamed `*js.Object` (`none` is `nil`) and
`rErr` (`none` is `nil`, `some e` is the `*js.Error` wrapping `e`). -/
structure JSFnResult where
  obj : Option Obj
  rErr : Option Obj

/-- `JSFn(funcName, args...)`: the body under the deferred function.  When the
body returns `out`, the results are `(out, nil)`.  When it panics,
`recover()` gives the panic value `e`: if `e` is a `*js.Error` the results are
the zero `*js.Object` and `rErr = err`, otherwise `panic(e)` raises `e`
again. -/
def JSFn (env : Env) (fuel : Nat) (funcName : String) (args : List Val) :
    M σ JSFnResult := fun s =>
  match JSFn.body H env fuel funcName args s with
  | ⟨.ok out, s1, l⟩ => ⟨.ok ⟨some out, none⟩, s1, l⟩
  | ⟨.panic (.jsError err), s1, l⟩ => ⟨.ok ⟨none, some err⟩, s1, l⟩
  | ⟨.panic (.other e), s1, l⟩ => ⟨.panic (.other e), s1, l⟩
  | ⟨.diverge, s1, l⟩ => ⟨.diverge, s1, l⟩

/-- `CreateRef()`. -/
def CreateRef (env : Env) : M σ Obj :=
  jsCall H env.React "createRef" []

/-- The loop of the `default` branch of the function literal in `ForwardRef`:
`for i := 0; i < n; i++ { children = append(children, props.Get("children").Index(i)) }`.
Neither `n` nor `i` is written in the body, so the first argument counts the
iterations that remain, `n - i`. -/
def ForwardRef.collect (props : Obj) : Nat → Int → List Val → M σ (List Val)
  | 0, _, children => pure children
  | k + 1, i, children => do
    let c ← jsGet H props "children"
    let e ← jsIndex H c i
    ForwardRef.collect props k (i + 1) (children ++ [.obj e])

/-- The function literal that `ForwardRef(component)` passes to
`forwardRef`, applied to `(props, ref)`. -/
def ForwardRef.callback (env : Env) (component : Val) (props ref : Obj) : M σ Obj := do
  jsSet H props "ref" (.obj ref)
  let rc ← jsGet H env.React "Children"
  let pc ← jsGet H props "children"
  let cnt ← jsCall H rc "count" [.obj pc]
  let n ← jsInt H cnt
  if n = 0 then
    JSX H env component (.obj props) []
  else if n = 1 then
    let c ← jsGet H props "children"
    JSX H env component (.obj props) [.obj c]
  else
    let children ← ForwardRef.collect H props n.toNat 0 []
    JSX H env component (.obj props) children

/-- `ForwardRef(component)`. -/
def ForwardRef (env : Env) (component : Val) : M σ Obj :=
  jsCall H env.React "forwardRef" [.forwardRefFn component]

/-- `CreateContext(defaultValue...)`; the results are `Context`, `Provider`
and `Consumer`. -/
def CreateContext (env : Env) (defaultValue : List Val) : M σ (Obj × Obj × Obj) := do
  let res ← if h : defaultValue.length > 0
    then jsCall H env.React "createContext" [defaultValue[0]]
    else jsCall H env.React "createContext" []
  let provider ← jsGet H res "Provider"
  let consumer ← jsGet H res "Consumer"
  pure (res, provider, consumer)

end Methods

/-- The host `H` with the entry point `createElement` served by `H`'s
`entry`: a call of `createElement` is answered as `H` answers a call of
`entry` on the same object with the same arguments. -/
def Host.createElementAs {σ : Type} (H : Host σ) (entry : String) : Host σ :=
  { H with call := fun o method args =>
      H.call o (if method = "createElement" then entry else method) args }

/-- The operation with a call of `createElement` renamed to a call of `entry`. -/
def HostOp.createElementAs (entry : String) : HostOp → HostOp
  | .call o method args => .call o (if method = "createElement" then entry else method) args
  | op => op

/-! ## Reading the log -/

/-- The values the host threw, in the order of the log. -/
def thrown : List Event → List PanicVal
  | [] => []
  | ⟨_, .threw p⟩ :: rest => p :: thrown rest
  | _ :: rest => thrown rest

/-- The panic a call ended with, as a list: empty when it did not panic. -/
def Outcome.panics {α : Type} : Outcome α → List PanicVal
  | .panic p => [p]
  | _ => []

/-- The log of a run is faithful to how the run ended: the values the host
threw are exactly the panic the run ended with, none when it did not panic. -/
def Faithful {σ α : Type} (r : Run σ α) : Prop := thrown r.log = r.out.panics

/-- The operations that read the array of segments: `Length`, `Index` and the
`String` of an element. -/
def HostOp.isArrayRead : HostOp → Bool
  | .length _ => true
  | .index _ _ => true
  | .string _ => true
  | _ => false

/-- The walk that a path describes, as the log it leaves when nothing throws:
from the object `out`, a `Get` of every segment but the last, each on the
object the lookup before it returned, and then a `Call` of the last segment
with `args` on the last object looked up.  `rs` are the objects the host
returned, one for each segment. -/
def walkEvents (args : List Val) : Obj → List String → List Obj → List Event
  | out, [seg], [r] => [⟨.call out seg args, .obj r⟩]
  | out, seg :: seg2 :: segs, r :: rs =>
    ⟨.get out seg, .obj r⟩ :: walkEvents args r (seg2 :: segs) rs
  | _, _, _ => []

/-- The object `splits` is, and stays, the array of the strings `segs`: in
every host state that satisfies `inv`, `Length` of `splits` is the number of
segments and `Index(i)` gives an object whose `String` is the `i`-th segment,
and the operations that `JSFn` performs lead from states that satisfy `inv` to
states that satisfy `inv`. -/
structure HoldsArray {σ : Type} (H : Host σ) (inv : σ → Prop) (splits : Obj)
    (segs : List String) : Prop where
  length : ∀ s, inv s →
    (H.length splits s).1 = .ok (segs.length : Int) ∧ inv (H.length splits s).2
  index : ∀ s, inv s → ∀ (i : Nat) (h : i < segs.length),
    inv (H.index splits i s).2 ∧
    ∃ e, (H.index splits i s).1 = .ok e ∧
      ∀ s2, inv s2 → (H.string e s2).1 = .ok segs[i] ∧ inv (H.string e s2).2
  get : ∀ s o key, inv s → inv (H.get o key s).2
  call : ∀ s o method args, inv s → inv (H.call o method args s).2

/-- The argument lists of the calls of `createElement` on `React` in a log, in
the order of the log. -/
def createCalls (env : Env) : List Event → List (List Val)
  | [] => []
  | ⟨.call o method args, _⟩ :: rest =>
    if o = env.React ∧ method = "createElement"
    then args :: createCalls env rest else createCalls env rest
  | _ :: rest => createCalls env rest

/-- An operation that neither writes a property nor calls `createElement`. -/
def HostOp.isQuiet : HostOp → Bool
  | .set _ _ _ => false
  | .call _ method _ => method != "createElement"
  | _ => true

/-- The reads of the children in the `default` branch of the function literal
of `ForwardRef`, as the log they leave when nothing throws: for the child
number `i`, `i + 1`, ... a `Get` of `"children"` on `props`, answered by the
next object of `cs`, and `Index` with that number on the object, answered by
the next object of `es`. -/
def childReads (props : Obj) : Int → List Obj → List Obj → List Event
  | i, c :: cs, e :: es =>
    ⟨.get props "children", .obj c⟩ :: ⟨.index c i, .obj e⟩ :: childReads props (i + 1) cs es
  | _, _, _ => []

/-- From the state `s`, the host answers the reads of the children number `i`,
`i + 1`, ...: `Get` of `"children"` on `props` gives the next object of `cs`,
`Index` with the child's number on that object gives the next object of `es`,
and after the last of them the host is in the state `s2`. -/
def AnswersChildren {σ : Type} (H : Host σ) (props : Obj) :
    Int → σ → List Obj → List Obj → σ → Prop
  | _, s, [], [], s2 => s2 = s
  | i, s, c :: cs, e :: es, s2 =>
    ∃ sa sb, H.get props "children" s = (.ok c, sa) ∧ H.index c i sa = (.ok e, sb)
      ∧ AnswersChildren H props (i + 1) sb cs es s2
  | _, _, _, _, _ => False

/-- From the state `s`, the host gives the children `kids` of `props` for the
count `n`, through the host operations `reads`, and is then in the state `s2`:
no child and no operation for the count 0; for the count 1 the object that
`Get` of `"children"` on `props` returns; and for any other count `n` the
objects that `props.children[0]`, ..., `props.children[n-1]` return, in that
order (none when `n` is negative). -/
def GivesChildren {σ : Type} (H : Host σ) (props : Obj) (n : Int) (s : σ)
    (kids : List Obj) (reads : List Event) (s2 : σ) : Prop :=
  (n = 0 ∧ kids = [] ∧ reads = [] ∧ s2 = s)
  ∨ (n = 1 ∧ ∃ c, H.get props "children" s = (.ok c, s2) ∧ kids = [c]
      ∧ reads = [⟨.get props "children", .obj c⟩])
  ∨ (n ≠ 0 ∧ n ≠ 1 ∧ kids.length = n.toNat
      ∧ ∃ cs, AnswersChildren H props 0 s cs kids s2 ∧ reads = childReads props 0 cs kids)

/-- A small host for the examples; its state counts the operations it has
answered.  Object 0 is the global object, 1 is `React`, 2 is the `String`
function, 3 the string `"JSON.parse"`, 4 its split (the array of 5, `"JSON"`,
and 6, `"parse"`), 7 is `JSON`, 8 a parsed value, 20 a thrown exception.
`JSON.parse` throws on the text `{bad json`, returns object 8 on any other
text, and raises a panic that is not a `*js.Error` on arguments that are not
one text.  Object 9 is `React.Children`, 10 a props object whose `children`
is the array 12 of the objects 13 and 14, 15 their count (2), and 16 the
element that `createElement` returns.  Object 30 is a props object whose
`children`, 31, counts 0 (the count object 32), and 40 one whose `children`,
41, counts 1 (the count object 42). -/
def demoHost : Host Nat where
  get o key s :=
    (match o, key with
      | 0, "String" => .ok 2
      | 0, "JSON" => .ok 7
      | 1, "Children" => .ok 9
      | 10, "children" => .ok 12
      | 30, "children" => .ok 31
      | 40, "children" => .ok 41
      | _, _ => .error (.jsError 20), s + 1)
  set _ _ _ s := (.ok (), s + 1)
  call o method args s :=
    (match o, method, args with
      | 3, "split", [.str "."] => .ok 4
      | 7, "parse", [.str "\x7bbad json"] => .error (.jsError 20)
      | 7, "parse", [.str _] => .ok 8
      | 7, "parse", _ => .error (.other 1)
      | 9, "count", [.obj 12] => .ok 15
      | 9, "count", [.obj 31] => .ok 32
      | 9, "count", [.obj 41] => .ok 42
      | 1, "createElement", _ => .ok 16
      | _, _, _ => .error (.jsError 20), s + 1)
  invoke o args s :=
    (match o, args with
      | 2, [.str "JSON.parse"] => .ok 3
      | _, _ => .error (.jsError 20), s + 1)
  index o i s :=
    (match o, i with
      | 4, 0 => .ok 5
      | 4, 1 => .ok 6
      | 12, 0 => .ok 13
      | 12, 1 => .ok 14
      | _, _ => .error (.jsError 20), s + 1)
  length o s := (match o with | 4 => .ok 2 | _ => .error (.jsError 20), s + 1)
  string o s :=
    (match o with
      | 5 => .ok "JSON"
      | 6 => .ok "parse"
      | _ => .error (.jsError 20), s + 1)
  int o s :=
    (match o with
      | 15 => .ok 2
      | 32 => .ok 0
      | 42 => .ok 1
      | _ => .error (.jsError 20), s + 1)

/-- The surroundings for the examples: `React` is object 1, the global object
is object 0, and props are passed on as they are. -/
def demoEnv : Env := ⟨1, 0, fun v => v⟩

/-! ## Theorems -/

section Theorems
variable {σ : Type} (H : Host σ)

/-! ### The argument list of `JSX` and `CloneElement` -/

theorem args_append_children (a b : Val) (children : List Val) :
    (if children.length > 0 then [a, b] ++ children else [a, b]) = a :: b :: children := by
  cases children <;> simp

theorem JSX_eq_call (env : Env) (component props : Val) (children : List Val) :
    JSX H env component props children
      = jsCall H env.React "createElement" (component :: env.SToMap props :: children) := by
  simp only [JSX, args_append_children]

theorem CloneElement_eq_call (env : Env) (element props : Val) (children : List Val) :
    CloneElement H env element props children
      = jsCall H env.React "cloneElement" (element :: env.SToMap props :: children) := by
  simp only [CloneElement, args_append_children]

/-- C1: `JSX` performs exactly one host operation, the call of
`createElement` on `React` with the arguments `component`, `SToMap(props)`
and then the children in their order; that is `2 + len(children)` arguments,
the second being the normalised props; and `JSX` ends as that call ends: it
returns the object the host returned, or panics with what the host threw. -/
theorem JSX_one_createElement_call (env : Env) (component props : Val)
    (children : List Val) (s : σ) :
    (component :: env.SToMap props :: children).length = 2 + children.length
    ∧ JSX H env component props children s =
      match H.call env.React "createElement"
          (component :: env.SToMap props :: children) s with
      | (.ok o, s1) =>
        ⟨.ok o, s1, [⟨.call env.React "createElement"
          (component :: env.SToMap props :: children), .obj o⟩]⟩
      | (.error p, s1) =>
        ⟨.panic p, s1, [⟨.call env.React "createElement"
          (component :: env.SToMap props :: children), .threw p⟩]⟩ := by
  refine ⟨by simp; omega, ?_⟩
  rw [JSX_eq_call]
  rcases h : H.call env.React "createElement"
      (component :: env.SToMap props :: children) s with ⟨_ | _, _⟩ <;>
    simp [jsCall, M.perform, h]

/-! ### One host operation, then the rest -/

theorem perform_andThen {α β : Type} (op : HostOp) (toReply : α → Reply)
    (f : σ → Except PanicVal α × σ) (g : α → M σ β) (s : σ) :
    M.andThen (M.perform op toReply f) g s =
      match f s with
      | (.ok a, s1) => ⟨(g a s1).out, (g a s1).state, ⟨op, toReply a⟩ :: (g a s1).log⟩
      | (.error p, s1) => ⟨.panic p, s1, [⟨op, .threw p⟩]⟩ := by
  rcases h : f s with ⟨_ | _, _⟩ <;> simp [M.andThen, M.perform, h]

theorem bind_eq_andThen {α β : Type} (m : M σ α) (g : α → M σ β) :
    (m >>= g) = M.andThen m g := rfl

theorem pure_eq_ret {α : Type} (a : α) : (pure a : M σ α) = M.ret a := rfl

/-- C7: `CreateContext` calls `createContext` on `React` first and once, with
no argument when no default is given and with the first default alone
otherwise; then it reads `Provider` and then `Consumer` from the object `res`
that call returned, and returns `(res, res.Provider, res.Consumer)`.  A throw of
one of the three host operations ends the function with that panic. -/
theorem CreateContext_one_call_three_handles (env : Env) (defaultValue : List Val) (s : σ) :
    CreateContext H env defaultValue s =
      match H.call env.React "createContext"
          (match defaultValue with | [] => [] | d :: _ => [d]) s with
      | (.error p, s1) =>
        ⟨.panic p, s1, [⟨.call env.React "createContext"
          (match defaultValue with | [] => [] | d :: _ => [d]), .threw p⟩]⟩
      | (.ok res, s1) =>
        match H.get res "Provider" s1 with
        | (.error p, s2) =>
          ⟨.panic p, s2, [⟨.call env.React "createContext"
              (match defaultValue with | [] => [] | d :: _ => [d]), .obj res⟩,
            ⟨.get res "Provider", .threw p⟩]⟩
        | (.ok provider, s2) =>
          match H.get res "Consumer" s2 with
          | (.error p, s3) =>
            ⟨.panic p, s3, [⟨.call env.React "createContext"
                (match defaultValue with | [] => [] | d :: _ => [d]), .obj res⟩,
              ⟨.get res "Provider", .obj provider⟩,
              ⟨.get res "Consumer", .threw p⟩]⟩
          | (.ok consumer, s3) =>
            ⟨.ok (res, provider, consumer), s3,
              [⟨.call env.React "createContext"
                (match defaultValue with | [] => [] | d :: _ => [d]), .obj res⟩,
              ⟨.get res "Provider", .obj provider⟩,
              ⟨.get res "Consumer", .obj consumer⟩]⟩ := by
  cases defaultValue with
  | nil =>
    simp only [CreateContext, bind_eq_andThen, pure_eq_ret, jsCall, jsGet,
      perform_andThen, List.length_nil, gt_iff_lt, lt_self_iff_false, dite_false]
    rcases H.call env.React "createContext" [] s with ⟨p | res, s1⟩
    · rfl
    · simp only
      rcases H.get res "Provider" s1 with ⟨p | provider, s2⟩
      · rfl
      · simp only
        rcases H.get res "Consumer" s2 with ⟨p | consumer, s3⟩ <;> rfl
  | cons d ds =>
    simp only [CreateContext, bind_eq_andThen, pure_eq_ret, jsCall, jsGet,
      perform_andThen, List.length_cons, gt_iff_lt, Nat.zero_lt_succ, dite_true,
      List.getElem_cons_zero]
    rcases H.call env.React "createContext" [d] s with ⟨p | res, s1⟩
    · rfl
    · simp only
      rcases H.get res "Provider" s1 with ⟨p | provider, s2⟩
      · rfl
      · simp only
        rcases H.get res "Consumer" s2 with ⟨p | consumer, s3⟩ <;> rfl

/-- C8: `CloneElement` builds the argument list that `JSX` builds for the same
inputs, `element`, `SToMap(props)` and then the children in their order
(`2 + len(children)` arguments), and performs one host operation with it, the
call of `cloneElement` on `React` where `JSX` calls `createElement`: on the
host that serves `createElement` as `H` serves `cloneElement`, `JSX` ends as
`CloneElement` ends on `H`, with the same log up to the name of the entry
point. -/
theorem CloneElement_same_arguments_as_JSX (env : Env) (element props : Val)
    (children : List Val) (s : σ) :
    (element :: env.SToMap props :: children).length = 2 + children.length
    ∧ (JSX H env element props children s).log.map Event.op
        = [.call env.React "createElement" (element :: env.SToMap props :: children)]
    ∧ (CloneElement H env element props children s).log.map Event.op
        = [.call env.React "cloneElement" (element :: env.SToMap props :: children)]
    ∧ (CloneElement H env element props children s).out
        = (JSX (H.createElementAs "cloneElement") env element props children s).out
    ∧ (CloneElement H env element props children s).state
        = (JSX (H.createElementAs "cloneElement") env element props children s).state
    ∧ (CloneElement H env element props children s).log
        = (JSX (H.createElementAs "cloneElement") env element props children s).log.map
            (fun ev => ⟨ev.op.createElementAs "cloneElement", ev.reply⟩) := by
  refine ⟨by simp; omega, ?_⟩
  rw [JSX_eq_call, JSX_eq_call, CloneElement_eq_call]
  have h2 : (H.createElementAs "cloneElement").call env.React "createElement"
      (element :: env.SToMap props :: children) s
      = H.call env.React "cloneElement" (element :: env.SToMap props :: children) s := by
    simp [Host.createElementAs]
  simp only [jsCall, M.perform, h2]
  rcases H.call env.React "createElement" (element :: env.SToMap props :: children) s
    with ⟨_ | _, _⟩ <;>
  rcases H.call env.React "cloneElement" (element :: env.SToMap props :: children) s
    with ⟨_ | _, _⟩ <;>
  simp [HostOp.createElementAs]

/-- C9: `Fragment` reads `React.Fragment` from the host and calls `JSX` with
that component, with the children as given, and with a props map that is
empty when `key` is `nil` and is exactly `"key" ↦ *key` otherwise, the empty
string included.  If the read throws, `Fragment` panics with what was thrown
and `JSX` is not called. -/
theorem Fragment_calls_JSX (env : Env) (key : Option String) (children : List Val) (s : σ) :
    Fragment H env key children s =
      match H.get env.React "Fragment" s with
      | (.error p, s1) => ⟨.panic p, s1, [⟨.get env.React "Fragment", .threw p⟩]⟩
      | (.ok c, s1) =>
        ⟨(JSX H env (.obj c)
            (.map (match key with | none => [] | some k => [("key", .str k)])) children s1).out,
          (JSX H env (.obj c)
            (.map (match key with | none => [] | some k => [("key", .str k)])) children s1).state,
          ⟨.get env.React "Fragment", .obj c⟩ ::
          (JSX H env (.obj c)
            (.map (match key with | none => [] | some k => [("key", .str k)])) children s1).log⟩ := by
  simp only [Fragment, bind_eq_andThen, jsGet, perform_andThen]
  cases key <;> rcases H.get env.React "Fragment" s with ⟨_ | _, _⟩ <;> simp [mapSet]

/-- C10: `Profiler` reads `React.Profiler` from the host and calls `JSX` with
that component, with the children as given, and with a props map that holds
`"id" ↦ id` (the empty string included), holds `"onRender"` exactly when the
callback is not `nil`, and holds no other key.  If the read throws,
`Profiler` panics with what was thrown and `JSX` is not called. -/
theorem Profiler_calls_JSX (env : Env) (id : String) (onRender : Option Nat)
    (children : List Val) (s : σ) :
    ∃ props : List (String × Val),
      props = ("id", .str id) ::
        (match onRender with | none => [] | some f => [("onRender", .fn f)])
      ∧ props.map Prod.fst = (if onRender.isSome then ["id", "onRender"] else ["id"])
      ∧ Profiler H env id onRender children s =
        match H.get env.React "Profiler" s with
        | (.error p, s1) => ⟨.panic p, s1, [⟨.get env.React "Profiler", .threw p⟩]⟩
        | (.ok c, s1) =>
          ⟨(JSX H env (.obj c) (.map props) children s1).out,
            (JSX H env (.obj c) (.map props) children s1).state,
            ⟨.get env.React "Profiler", .obj c⟩ ::
              (JSX H env (.obj c) (.map props) children s1).log⟩ := by
  refine ⟨_, rfl, ?_, ?_⟩
  · cases onRender <;> simp
  · simp only [Profiler, bind_eq_andThen, jsGet, perform_andThen]
    cases onRender <;> rcases H.get env.React "Profiler" s with ⟨_ | _, _⟩ <;> simp [mapSet]

theorem andThen_perform_ok {α β : Type} (op : HostOp) (toReply : α → Reply)
    (f : σ → Except PanicVal α × σ) (g : α → M σ β) (s : σ) (a : α)
    (h : (f s).1 = .ok a) :
    M.andThen (M.perform op toReply f) g s =
      ⟨(g a (f s).2).out, (g a (f s).2).state, ⟨op, toReply a⟩ :: (g a (f s).2).log⟩ := by
  rw [perform_andThen]
  rcases hfs : f s with ⟨r, s1⟩
  rw [hfs] at h
  simp only at h
  subst h
  rfl

theorem andThen_perform_error {α β : Type} (op : HostOp) (toReply : α → Reply)
    (f : σ → Except PanicVal α × σ) (g : α → M σ β) (s : σ) (p : PanicVal)
    (h : (f s).1 = .error p) :
    M.andThen (M.perform op toReply f) g s = ⟨.panic p, (f s).2, [⟨op, .threw p⟩]⟩ := by
  rw [perform_andThen]
  rcases hfs : f s with ⟨r, s1⟩
  rw [hfs] at h
  simp only at h
  subst h
  rfl

/-! ### The log records every throw, and a throw ends the program -/

theorem thrown_append (l1 l2 : List Event) : thrown (l1 ++ l2) = thrown l1 ++ thrown l2 := by
  induction l1 with
  | nil => rfl
  | cons ev l1 ih =>
    rcases ev with ⟨op, _ | _ | _ | _ | p⟩ <;> simp [thrown, ih]

theorem mem_thrown_iff (l : List Event) (p : PanicVal) :
    p ∈ thrown l ↔ ∃ ev ∈ l, ev.reply = .threw p := by
  induction l with
  | nil => simp [thrown]
  | cons ev l ih =>
    rcases ev with ⟨op, _ | _ | _ | _ | q⟩ <;> simp [thrown, ih, eq_comm]

theorem thrown_eq_nil_iff (l : List Event) :
    thrown l = [] ↔ ∀ ev ∈ l, ∀ p, ev.reply ≠ .threw p := by
  rw [List.eq_nil_iff_forall_not_mem]
  constructor
  · intro h ev hev p hp
    exact h p ((mem_thrown_iff l p).2 ⟨ev, hev, hp⟩)
  · intro h p hp
    obtain ⟨ev, hev, hrep⟩ := (mem_thrown_iff l p).1 hp
    exact h ev hev p hrep

theorem faithful_ret {α : Type} (a : α) (s : σ) : Faithful (M.ret a s) := rfl

theorem faithful_outOfFuel {α : Type} (s : σ) : Faithful (M.outOfFuel s : Run σ α) := rfl

theorem faithful_andThen {α β : Type} (m : M σ α) (g : α → M σ β) (s : σ)
    (hm : Faithful (m s)) (hg : ∀ a s1, Faithful (g a s1)) :
    Faithful (M.andThen m g s) := by
  unfold Faithful at *
  unfold M.andThen
  rcases h : m s with ⟨_ | _ | _, s1, l1⟩ <;> rw [h] at hm
  · rename_i a
    have h2 := hg a s1
    simp only [Outcome.panics] at hm
    simp only [thrown_append, hm, List.nil_append, h2]
  · simpa using hm
  · simpa using hm

theorem faithful_jsGet (o : Obj) (key : String) (s : σ) : Faithful (jsGet H o key s) := by
  unfold Faithful jsGet M.perform
  rcases H.get o key s with ⟨_ | _, _⟩ <;> rfl

theorem faithful_jsCall (o : Obj) (method : String) (args : List Val) (s : σ) :
    Faithful (jsCall H o method args s) := by
  unfold Faithful jsCall M.perform
  rcases H.call o method args s with ⟨_ | _, _⟩ <;> rfl

theorem faithful_jsInvoke (o : Obj) (args : List Val) (s : σ) :
    Faithful (jsInvoke H o args s) := by
  unfold Faithful jsInvoke M.perform
  rcases H.invoke o args s with ⟨_ | _, _⟩ <;> rfl

theorem faithful_jsIndex (o : Obj) (i : Int) (s : σ) : Faithful (jsIndex H o i s) := by
  unfold Faithful jsIndex M.perform
  rcases H.index o i s with ⟨_ | _, _⟩ <;> rfl

theorem faithful_jsLength (o : Obj) (s : σ) : Faithful (jsLength H o s) := by
  unfold Faithful jsLength M.perform
  rcases H.length o s with ⟨_ | _, _⟩ <;> rfl

theorem faithful_jsString (o : Obj) (s : σ) : Faithful (jsString H o s) := by
  unfold Faithful jsString M.perform
  rcases H.string o s with ⟨_ | _, _⟩ <;> rfl

theorem faithful_loop (splits : Obj) (args : List Val) (fuel : Nat) :
    ∀ (idx : Int) (out : Obj) (s : σ), Faithful (JSFn.loop H splits args fuel idx out s) := by
  induction fuel with
  | zero => intro idx out s; exact faithful_outOfFuel s
  | succ fuel ih =>
    intro idx out s
    unfold JSFn.loop
    simp only [bind_eq_andThen, pure_eq_ret]
    apply faithful_andThen _ _ _ (faithful_jsLength H _ _)
    intro len s1
    split
    · apply faithful_andThen _ _ _ (faithful_jsIndex H _ _ _)
      intro e s2
      apply faithful_andThen _ _ _ (faithful_jsString H _ _)
      intro split s3
      apply faithful_andThen _ _ _ (faithful_jsLength H _ _)
      intro len2 s4
      split
      · apply faithful_andThen _ _ _ (faithful_jsCall H _ _ _ _)
        intro out2 s5
        exact ih _ _ _
      · apply faithful_andThen _ _ _ (faithful_jsGet H _ _ _)
        intro out2 s5
        exact ih _ _ _
    · exact faithful_ret _ _

theorem faithful_body (env : Env) (fuel : Nat) (funcName : String) (args : List Val) (s : σ) :
    Faithful (JSFn.body H env fuel funcName args s) := by
  unfold JSFn.body
  simp only [bind_eq_andThen]
  apply faithful_andThen _ _ _ (faithful_jsGet H _ _ _)
  intro ctor s1
  apply faithful_andThen _ _ _ (faithful_jsInvoke H _ _ _)
  intro str s2
  apply faithful_andThen _ _ _ (faithful_jsCall H _ _ _ _)
  intro splits s3
  exact faithful_loop H _ _ _ _ _ _

theorem JSFn_log (env : Env) (fuel : Nat) (funcName : String) (args : List Val) (s : σ) :
    (JSFn H env fuel funcName args s).log = (JSFn.body H env fuel funcName args s).log := by
  unfold JSFn
  rcases JSFn.body H env fuel funcName args s with ⟨_ | ⟨_ | _⟩ | _, _, _⟩ <;> rfl

/-- C3: if a host operation performed inside `JSFn` (one of the split, a
property lookup, the final invocation, or a read of the split array) throws a
`*js.Error`, then `JSFn` does not panic and does not run on: it returns the
`nil` object and, as `rErr`, that very `*js.Error`. -/
theorem JSFn_host_exception_becomes_error (env : Env) (fuel : Nat) (funcName : String)
    (args : List Val) (s : σ) (err : Obj)
    (h : ∃ ev ∈ (JSFn H env fuel funcName args s).log, ev.reply = .threw (.jsError err)) :
    (JSFn H env fuel funcName args s).out = .ok ⟨none, some err⟩ := by
  rw [JSFn_log] at h
  have hf := faithful_body H env fuel funcName args s
  have hmem := (mem_thrown_iff _ _).2 h
  unfold Faithful at hf
  rw [hf] at hmem
  rcases hb : JSFn.body H env fuel funcName args s with ⟨out, s1, l⟩
  rw [hb] at hmem
  rcases out with _ | ⟨_ | _⟩ | _ <;> simp [Outcome.panics] at hmem
  all_goals simp [JSFn, hb, hmem]

/-- C4: if a host operation performed inside `JSFn` panics with a value that
is not a `*js.Error`, then `JSFn` returns nothing: it panics with that same
value. -/
theorem JSFn_other_panic_is_raised_again (env : Env) (fuel : Nat) (funcName : String)
    (args : List Val) (s : σ) (tag : Nat)
    (h : ∃ ev ∈ (JSFn H env fuel funcName args s).log, ev.reply = .threw (.other tag)) :
    (JSFn H env fuel funcName args s).out = .panic (.other tag) := by
  rw [JSFn_log] at h
  have hf := faithful_body H env fuel funcName args s
  have hmem := (mem_thrown_iff _ _).2 h
  unfold Faithful at hf
  rw [hf] at hmem
  rcases hb : JSFn.body H env fuel funcName args s with ⟨out, s1, l⟩
  rw [hb] at hmem
  rcases out with _ | ⟨_ | _⟩ | _ <;> simp [Outcome.panics] at hmem
  all_goals simp [JSFn, hb, hmem]

/-- The example of C3: `JSFn("JSON.parse", "{bad json")` on the small host,
where `JSON.parse` throws the exception 20. -/
theorem JSFn_host_exception_becomes_error_witness :
    (∃ ev ∈ (JSFn demoHost demoEnv 3 "JSON.parse" [.str "\x7bbad json"] 0).log,
        ev.reply = .threw (.jsError 20))
    ∧ (JSFn demoHost demoEnv 3 "JSON.parse" [.str "\x7bbad json"] 0).out
        = .ok ⟨none, some 20⟩ :=
  have h : ∃ ev ∈ (JSFn demoHost demoEnv 3 "JSON.parse" [.str "\x7bbad json"] 0).log,
      ev.reply = .threw (.jsError 20) :=
    ⟨⟨.call 7 "parse" [.str "\x7bbad json"], .threw (.jsError 20)⟩,
      by
        rw [show (JSFn demoHost demoEnv 3 "JSON.parse" [.str "\x7bbad json"] 0).log
          = [⟨.get 0 "String", .obj 2⟩, ⟨.invoke 2 [.str "JSON.parse"], .obj 3⟩,
             ⟨.call 3 "split" [.str "."], .obj 4⟩,
             ⟨.length 4, .int 2⟩, ⟨.index 4 0, .obj 5⟩, ⟨.string 5, .str "JSON"⟩,
             ⟨.length 4, .int 2⟩, ⟨.get 0 "JSON", .obj 7⟩,
             ⟨.length 4, .int 2⟩, ⟨.index 4 1, .obj 6⟩, ⟨.string 6, .str "parse"⟩,
             ⟨.length 4, .int 2⟩,
             ⟨.call 7 "parse" [.str "\x7bbad json"], .threw (.jsError 20)⟩] from rfl]
        simp,
      rfl⟩
  ⟨h, JSFn_host_exception_becomes_error demoHost demoEnv 3 "JSON.parse"
    [.str "\x7bbad json"] 0 20 h⟩

/-- An example of C4: `JSFn("JSON.parse", f)` with a function value `f` on the
small host, where `JSON.parse` then raises a panic that is not a
`*js.Error`. -/
theorem JSFn_other_panic_is_raised_again_witness :
    (∃ ev ∈ (JSFn demoHost demoEnv 3 "JSON.parse" [.fn 0] 0).log,
        ev.reply = .threw (.other 1))
    ∧ (JSFn demoHost demoEnv 3 "JSON.parse" [.fn 0] 0).out
        = .panic (.other 1) :=
  have h : ∃ ev ∈ (JSFn demoHost demoEnv 3 "JSON.parse" [.fn 0] 0).log,
      ev.reply = .threw (.other 1) :=
    ⟨⟨.call 7 "parse" [.fn 0], .threw (.other 1)⟩,
      by
        rw [show (JSFn demoHost demoEnv 3 "JSON.parse" [.fn 0] 0).log
          = [⟨.get 0 "String", .obj 2⟩, ⟨.invoke 2 [.str "JSON.parse"], .obj 3⟩,
             ⟨.call 3 "split" [.str "."], .obj 4⟩,
             ⟨.length 4, .int 2⟩, ⟨.index 4 0, .obj 5⟩, ⟨.string 5, .str "JSON"⟩,
             ⟨.length 4, .int 2⟩, ⟨.get 0 "JSON", .obj 7⟩,
             ⟨.length 4, .int 2⟩, ⟨.index 4 1, .obj 6⟩, ⟨.string 6, .str "parse"⟩,
             ⟨.length 4, .int 2⟩,
             ⟨.call 7 "parse" [.fn 0], .threw (.other 1)⟩] from rfl]
        simp,
      rfl⟩
  ⟨h, JSFn_other_panic_is_raised_again demoHost demoEnv 3 "JSON.parse" [.fn 0] 0 1 h⟩

/-! ### The walk of `JSFn` along the path -/

theorem loop_exit (inv : σ → Prop) (splits : Obj) (segs : List String)
    (harr : HoldsArray H inv splits segs) (args : List Val) (fuel : Nat) (out : Obj) (s : σ)
    (hs : inv s) :
    JSFn.loop H splits args (fuel + 1) (segs.length : Int) out s
      = ⟨.ok out, (H.length splits s).2, [⟨.length splits, .int segs.length⟩]⟩ := by
  simp only [JSFn.loop, bind_eq_andThen, pure_eq_ret, jsLength]
  rw [andThen_perform_ok _ _ _ _ _ _ (harr.length s hs).1]
  simp [M.ret]

theorem loop_unfold (inv : σ → Prop) (splits : Obj) (segs : List String)
    (harr : HoldsArray H inv splits segs) (args : List Val) (fuel : Nat) (i : Nat)
    (out : Obj) (s : σ) (hs : inv s) (hi : i < segs.length) :
    ∃ (e : Obj) (s4 : σ), inv s4 ∧
      JSFn.loop H splits args (fuel + 1) (i : Int) out s =
        ⟨(M.andThen (if (i : Int) = (segs.length : Int) - 1
              then jsCall H out segs[i] args else jsGet H out segs[i])
            (fun y => JSFn.loop H splits args fuel ((i : Int) + 1) y) s4).out,
          (M.andThen (if (i : Int) = (segs.length : Int) - 1
              then jsCall H out segs[i] args else jsGet H out segs[i])
            (fun y => JSFn.loop H splits args fuel ((i : Int) + 1) y) s4).state,
          ⟨.length splits, .int segs.length⟩ :: ⟨.index splits i, .obj e⟩ ::
            ⟨.string e, .str segs[i]⟩ :: ⟨.length splits, .int segs.length⟩ ::
          (M.andThen (if (i : Int) = (segs.length : Int) - 1
              then jsCall H out segs[i] args else jsGet H out segs[i])
            (fun y => JSFn.loop H splits args fuel ((i : Int) + 1) y) s4).log⟩ := by
  obtain ⟨hlen1, hs1⟩ := harr.length s hs
  obtain ⟨hs2, e, he, hstr⟩ := harr.index _ hs1 i hi
  obtain ⟨hseg, hs3⟩ := hstr _ hs2
  obtain ⟨hlen2, hs4⟩ := harr.length _ hs3
  refine ⟨e, _, hs4, ?_⟩
  have hlt : (i : Int) < (segs.length : Int) := by exact_mod_cast hi
  simp only [JSFn.loop, bind_eq_andThen, pure_eq_ret, jsLength, jsIndex, jsString]
  rw [andThen_perform_ok _ _ _ _ _ _ hlen1]
  simp only [hlt, if_true]
  rw [andThen_perform_ok _ _ _ _ _ _ he]
  simp only
  rw [andThen_perform_ok _ _ _ _ _ _ hseg]
  simp only
  rw [andThen_perform_ok _ _ _ _ _ _ hlen2]
  simp only
  split <;> rfl

theorem getLast?_cons_getD (r : Obj) (rs : List Obj) (out : Obj) :
    (r :: rs).getLast?.getD out = rs.getLast?.getD r := by
  cases rs with
  | nil => rfl
  | cons a rs =>
    rw [List.getLast?_cons_cons, List.getLast?_eq_getLast _ (List.cons_ne_nil _ _)]
    rfl

theorem filter_length (o : Obj) (r : Reply) (l : List Event) :
    List.filter (fun ev => !ev.op.isArrayRead) (⟨.length o, r⟩ :: l)
      = l.filter (fun ev => !ev.op.isArrayRead) := by
  simp [List.filter, HostOp.isArrayRead]

theorem filter_index (o : Obj) (i : Int) (r : Reply) (l : List Event) :
    List.filter (fun ev => !ev.op.isArrayRead) (⟨.index o i, r⟩ :: l)
      = l.filter (fun ev => !ev.op.isArrayRead) := by
  simp [List.filter, HostOp.isArrayRead]

theorem filter_string (o : Obj) (r : Reply) (l : List Event) :
    List.filter (fun ev => !ev.op.isArrayRead) (⟨.string o, r⟩ :: l)
      = l.filter (fun ev => !ev.op.isArrayRead) := by
  simp [List.filter, HostOp.isArrayRead]

theorem filter_call (o : Obj) (m : String) (a : List Val) (r : Reply) (l : List Event) :
    List.filter (fun ev => !ev.op.isArrayRead) (⟨.call o m a, r⟩ :: l)
      = ⟨.call o m a, r⟩ :: l.filter (fun ev => !ev.op.isArrayRead) := by
  simp [List.filter, HostOp.isArrayRead]

theorem filter_get (o : Obj) (k : String) (r : Reply) (l : List Event) :
    List.filter (fun ev => !ev.op.isArrayRead) (⟨.get o k, r⟩ :: l)
      = ⟨.get o k, r⟩ :: l.filter (fun ev => !ev.op.isArrayRead) := by
  simp [List.filter, HostOp.isArrayRead]

theorem filter_invoke (o : Obj) (a : List Val) (r : Reply) (l : List Event) :
    List.filter (fun ev => !ev.op.isArrayRead) (⟨.invoke o a, r⟩ :: l)
      = ⟨.invoke o a, r⟩ :: l.filter (fun ev => !ev.op.isArrayRead) := by
  simp [List.filter, HostOp.isArrayRead]

theorem loop_walks (inv : σ → Prop) (splits : Obj) (segs : List String)
    (harr : HoldsArray H inv splits segs) (args : List Val) :
    ∀ (rest : List String) (i : Nat) (out : Obj) (fuel : Nat) (s : σ),
      inv s → i ≤ segs.length → segs.drop i = rest → rest.length < fuel →
      thrown (JSFn.loop H splits args fuel (i : Int) out s).log = [] →
      ∃ rs : List Obj, rs.length = rest.length
        ∧ (JSFn.loop H splits args fuel (i : Int) out s).out = .ok (rs.getLast?.getD out)
        ∧ (JSFn.loop H splits args fuel (i : Int) out s).log.filter
              (fun ev => !ev.op.isArrayRead)
            = walkEvents args out rest rs := by
  intro rest
  induction rest with
  | nil =>
    intro i out fuel s hs hi hdrop hfuel _
    obtain ⟨fuel, rfl⟩ : ∃ f, fuel = f + 1 := ⟨fuel - 1, by simp at hfuel; omega⟩
    have hik : i = segs.length := by
      have := congrArg List.length hdrop
      simp at this
      omega
    rw [hik, loop_exit H inv splits segs harr args fuel out s hs]
    exact ⟨[], rfl, rfl, rfl⟩
  | cons seg rest ih =>
    intro i out fuel s hs hi hdrop hfuel hth
    obtain ⟨fuel, rfl⟩ : ∃ f, fuel = f + 1 := ⟨fuel - 1, by simp at hfuel; omega⟩
    have hlt : i < segs.length := by
      have := congrArg List.length hdrop
      simp at this
      omega
    have hcons := List.drop_eq_getElem_cons hlt
    rw [hdrop] at hcons
    have hseg : segs[i] = seg := (List.cons.inj hcons).1.symm
    have hdrop2 : segs.drop (i + 1) = rest := (List.cons.inj hcons).2.symm
    have hlen2 : i + 1 + rest.length = segs.length := by
      have := congrArg List.length hdrop
      simp at this
      omega
    obtain ⟨e, s4, hs4, hun⟩ := loop_unfold H inv splits segs harr args fuel i out s hs hlt
    have hcast : ((i : Int) + 1) = ((i + 1 : Nat) : Int) := by push_cast; rfl
    rw [hun] at hth ⊢
    rw [hseg, hcast] at hth ⊢
    simp only [thrown] at hth
    by_cases hlast : (i : Int) = (segs.length : Int) - 1
    · have hrest : rest = [] := by
        apply List.eq_nil_of_length_eq_zero
        omega
      subst hrest
      simp only [hlast, if_true, jsCall] at hth ⊢
      rcases hc : (H.call out seg args s4).1 with p | r
      · rw [andThen_perform_error _ _ _ _ _ _ hc] at hth
        simp [thrown] at hth
      · rw [andThen_perform_ok _ _ _ _ _ _ hc] at hth ⊢
        have hs5 := harr.call s4 out seg args hs4
        obtain ⟨rs, hrs, hout, hlog⟩ := ih (i + 1) r fuel _ hs5 (by omega) hdrop2
          (by simpa using hfuel) (by simpa [thrown] using hth)
        have hnil : rs = [] := List.eq_nil_of_length_eq_zero (by simpa using hrs)
        subst hnil
        refine ⟨[r], rfl, ?_, ?_⟩
        · simpa using hout
        · rw [filter_length, filter_index, filter_string, filter_length, filter_call, hlog]
          rfl
    · obtain ⟨seg2, rest2, hrest⟩ : ∃ seg2 rest2, rest = seg2 :: rest2 := by
        cases rest with
        | nil => simp at hlen2; omega
        | cons a b => exact ⟨a, b, rfl⟩
      simp only [hlast, if_false, jsGet] at hth ⊢
      rcases hc : (H.get out seg s4).1 with p | r
      · rw [andThen_perform_error _ _ _ _ _ _ hc] at hth
        simp [thrown] at hth
      · rw [andThen_perform_ok _ _ _ _ _ _ hc] at hth ⊢
        have hs5 := harr.get s4 out seg hs4
        obtain ⟨rs, hrs, hout, hlog⟩ := ih (i + 1) r fuel _ hs5 (by omega) hdrop2
          (by simpa using hfuel) (by simpa [thrown] using hth)
        refine ⟨r :: rs, by simp [hrs], ?_, ?_⟩
        · rw [getLast?_cons_getD]
          simpa using hout
        · rw [filter_length, filter_index, filter_string, filter_length, filter_get, hlog,
            hrest]
          rfl

/-- C2: let the host split the path `funcName` into the array `splits` of the
segments `segs`, at least one, and let no host operation throw.  Then, given
fuel for one test of the loop condition more than there are segments, `JSFn`
returns `(r, nil)`, where `r` is the object the last host operation of the walk
returned, and apart from the reads of the array of segments its log is the
three operations of the split (`Get` of `String` on the global object, its
invocation on `funcName`, the call of `split` with `"."`) followed by the walk
of the path from the global object: a `Get` of each segment but the last, each
on the object the lookup before returned, and then one `Call` of the last
segment with exactly `args` on the last object looked up.  There are as many
operations in the walk as segments, so a path without a dot is walked by the
one `Call` on the global object. -/
theorem JSFn_walks_path (env : Env) (fuel : Nat) (funcName : String) (args : List Val)
    (segs : List String) (inv : σ → Prop) (ctor str splits : Obj) (s0 s1 s2 s3 : σ)
    (hctor : H.get env.Global "String" s0 = (.ok ctor, s1))
    (hstr : H.invoke ctor [.str funcName] s1 = (.ok str, s2))
    (hsplit : H.call str "split" [.str "."] s2 = (.ok splits, s3))
    (hinv : inv s3) (harr : HoldsArray H inv splits segs)
    (hk : segs ≠ []) (hfuel : segs.length < fuel)
    (hnothrow : ∀ ev ∈ (JSFn H env fuel funcName args s0).log, ∀ p, ev.reply ≠ .threw p) :
    ∃ rs : List Obj, rs.length = segs.length
      ∧ (JSFn H env fuel funcName args s0).out = .ok ⟨rs.getLast?, none⟩
      ∧ (JSFn H env fuel funcName args s0).log.filter (fun ev => !ev.op.isArrayRead)
          = [⟨.get env.Global "String", .obj ctor⟩,
             ⟨.invoke ctor [.str funcName], .obj str⟩,
             ⟨.call str "split" [.str "."], .obj splits⟩]
            ++ walkEvents args env.Global segs rs
      ∧ (walkEvents args env.Global segs rs).length = segs.length := by
  have hb : JSFn.body H env fuel funcName args s0 =
      ⟨(JSFn.loop H splits args fuel ((0 : Nat) : Int) env.Global s3).out,
        (JSFn.loop H splits args fuel ((0 : Nat) : Int) env.Global s3).state,
        ⟨.get env.Global "String", .obj ctor⟩ ::
          ⟨.invoke ctor [.str funcName], .obj str⟩ ::
          ⟨.call str "split" [.str "."], .obj splits⟩ ::
          (JSFn.loop H splits args fuel ((0 : Nat) : Int) env.Global s3).log⟩ := by
    simp only [JSFn.body, bind_eq_andThen, jsGet, jsInvoke, jsCall]
    rw [andThen_perform_ok _ _ _ _ _ ctor (by rw [hctor])]
    simp only [hctor]
    rw [andThen_perform_ok _ _ _ _ _ str (by rw [hstr])]
    simp only [hstr]
    rw [andThen_perform_ok _ _ _ _ _ splits (by rw [hsplit])]
    simp only [hsplit]
    rfl
  rw [JSFn_log, hb] at hnothrow
  have hth : thrown (JSFn.loop H splits args fuel ((0 : Nat) : Int) env.Global s3).log = [] := by
    rw [thrown_eq_nil_iff]
    intro ev hev
    exact hnothrow ev
      (List.mem_cons_of_mem _ (List.mem_cons_of_mem _ (List.mem_cons_of_mem _ hev)))
  obtain ⟨rs, hrs, hout, hlog⟩ := loop_walks H inv splits segs harr args segs 0 env.Global
    fuel s3 hinv (Nat.zero_le _) rfl hfuel hth
  have hne : rs ≠ [] := by
    intro h
    rw [h] at hrs
    exact hk (List.eq_nil_of_length_eq_zero hrs.symm)
  have hwalk : ∀ (segs : List String) (rs : List Obj) (out : Obj), rs.length = segs.length →
      (walkEvents args out segs rs).length = segs.length := by
    intro segs
    induction segs with
    | nil => intro rs out h; cases rs <;> simp [walkEvents]
    | cons seg segs ih =>
      intro rs out h
      cases rs with
      | nil => simp at h
      | cons r rs =>
        cases segs with
        | nil =>
          have : rs = [] := List.eq_nil_of_length_eq_zero (by simpa using h)
          subst this
          simp [walkEvents]
        | cons seg2 segs =>
          simp only [walkEvents, List.length_cons]
          rw [ih rs r (by simpa using h)]
          simp
  refine ⟨rs, hrs, ?_, ?_, hwalk segs rs env.Global hrs⟩
  · have hlast : rs.getLast? = some (rs.getLast?.getD env.Global) := by
      rw [List.getLast?_eq_getLast _ hne]
      rfl
    simp only [JSFn, hb, hout]
    rw [hlast]
    simp
  · rw [JSFn_log, hb]
    simp only
    rw [filter_get, filter_invoke, filter_call, hlog]
    rfl

/-- An example of C2: `JSFn("JSON.parse", "{}")` on the small host, whose
split of `"JSON.parse"` is the array 4 of `"JSON"` and `"parse"`. -/
theorem JSFn_walks_path_witness :
    ∃ rs : List Obj, rs.length = ["JSON", "parse"].length
      ∧ (JSFn demoHost demoEnv 3 "JSON.parse" [.str "\x7b\x7d"] 0).out = .ok ⟨rs.getLast?, none⟩
      ∧ (JSFn demoHost demoEnv 3 "JSON.parse" [.str "\x7b\x7d"] 0).log.filter
            (fun ev => !ev.op.isArrayRead)
          = [⟨.get demoEnv.Global "String", .obj 2⟩,
             ⟨.invoke 2 [.str "JSON.parse"], .obj 3⟩,
             ⟨.call 3 "split" [.str "."], .obj 4⟩]
            ++ walkEvents [.str "\x7b\x7d"] demoEnv.Global ["JSON", "parse"] rs
      ∧ (walkEvents [.str "\x7b\x7d"] demoEnv.Global ["JSON", "parse"] rs).length
          = ["JSON", "parse"].length :=
  JSFn_walks_path demoHost demoEnv 3 "JSON.parse" [.str "\x7b\x7d"] ["JSON", "parse"]
    (fun _ => True) 2 3 4 0 1 2 3 rfl rfl rfl trivial
    { length := fun _ _ => ⟨rfl, trivial⟩
      index := fun s _ i h => by
        refine ⟨trivial, ?_⟩
        match i, h with
        | 0, _ => exact ⟨5, rfl, fun _ _ => ⟨rfl, trivial⟩⟩
        | 1, _ => exact ⟨6, rfl, fun _ _ => ⟨rfl, trivial⟩⟩
      get := fun _ _ _ _ => trivial
      call := fun _ _ _ _ _ => trivial }
    (by simp) (by decide)
    (by
      rw [show (JSFn demoHost demoEnv 3 "JSON.parse" [.str "\x7b\x7d"] 0).log
        = [⟨.get 0 "String", .obj 2⟩, ⟨.invoke 2 [.str "JSON.parse"], .obj 3⟩,
           ⟨.call 3 "split" [.str "."], .obj 4⟩,
           ⟨.length 4, .int 2⟩, ⟨.index 4 0, .obj 5⟩, ⟨.string 5, .str "JSON"⟩,
           ⟨.length 4, .int 2⟩, ⟨.get 0 "JSON", .obj 7⟩,
           ⟨.length 4, .int 2⟩, ⟨.index 4 1, .obj 6⟩, ⟨.string 6, .str "parse"⟩,
           ⟨.length 4, .int 2⟩, ⟨.call 7 "parse" [.str "\x7b\x7d"], .obj 8⟩,
           ⟨.length 4, .int 2⟩] from rfl]
      simp)

/-! ### The function literal of `ForwardRef` -/

theorem createCalls_append (env : Env) (l1 l2 : List Event) :
    createCalls env (l1 ++ l2) = createCalls env l1 ++ createCalls env l2 := by
  induction l1 with
  | nil => rfl
  | cons ev l1 ih =>
    rcases ev with ⟨_ | _ | _ | _ | _ | _ | _ | _, _⟩ <;> simp [createCalls, ih]
    split <;> simp

theorem createCalls_quiet (env : Env) (l : List Event)
    (h : ∀ ev ∈ l, ev.op.isQuiet = true) : createCalls env l = [] := by
  induction l with
  | nil => rfl
  | cons ev l ih =>
    have hl := ih (fun ev hev => h ev (List.mem_cons_of_mem _ hev))
    have hev := h ev (List.mem_cons_self _ _)
    rcases ev with ⟨_ | _ | _ | _ | _ | _ | _ | _, _⟩ <;>
      simp_all [createCalls, HostOp.isQuiet]

theorem childReads_quiet (props : Obj) :
    ∀ (cs es : List Obj) (i : Int), ∀ ev ∈ childReads props i cs es, ev.op.isQuiet = true := by
  intro cs
  induction cs with
  | nil => intro es i ev hev; simp [childReads] at hev
  | cons c cs ih =>
    intro es i ev hev
    cases es with
    | nil => simp [childReads] at hev
    | cons e es =>
      simp only [childReads, List.mem_cons] at hev
      rcases hev with rfl | rfl | hev
      · rfl
      · rfl
      · exact ih es (i + 1) ev hev

theorem collect_run (props : Obj) :
    ∀ (k : Nat) (i : Int) (acc : List Val) (s : σ),
      (∃ p, (ForwardRef.collect H props k i acc s).out = .panic p
          ∧ ∀ ev ∈ (ForwardRef.collect H props k i acc s).log, ev.op.isQuiet = true)
      ∨ (∃ cs es : List Obj, cs.length = k ∧ es.length = k
          ∧ (ForwardRef.collect H props k i acc s).out = .ok (acc ++ es.map Val.obj)
          ∧ (ForwardRef.collect H props k i acc s).log = childReads props i cs es) := by
  intro k
  induction k with
  | zero =>
    intro i acc s
    exact Or.inr ⟨[], [], rfl, rfl, by simp [ForwardRef.collect, pure_eq_ret, M.ret], rfl⟩
  | succ k ih =>
    intro i acc s
    simp only [ForwardRef.collect, bind_eq_andThen, jsGet, jsIndex]
    rw [perform_andThen]
    rcases H.get props "children" s with ⟨p | c, s1⟩
    · exact Or.inl ⟨p, rfl, by simp [HostOp.isQuiet]⟩
    · simp only
      rw [perform_andThen]
      rcases H.index c i s1 with ⟨p | e, s2⟩
      · exact Or.inl ⟨p, rfl, by simp [HostOp.isQuiet]⟩
      · simp only
        rcases ih (i + 1) (acc ++ [.obj e]) s2 with ⟨p, hout, hq⟩ | ⟨cs, es, hcs, hes, hout, hlog⟩
        · refine Or.inl ⟨p, hout, ?_⟩
          intro ev hev
          simp only [List.mem_cons] at hev
          rcases hev with rfl | rfl | hev
          · rfl
          · rfl
          · exact hq ev hev
        · refine Or.inr ⟨c :: cs, e :: es, by simp [hcs], by simp [hes], ?_, ?_⟩
          · rw [hout]
            simp
          · rw [hlog]
            rfl

theorem callback_run (env : Env) (component : Val) (props ref : Obj) (s : σ) :
    (∃ (p : PanicVal) (rep : Reply) (pre : List Event),
        (ForwardRef.callback H env component props ref s).out = .panic p
        ∧ (ForwardRef.callback H env component props ref s).log
            = ⟨.set props "ref" (.obj ref), rep⟩ :: pre
        ∧ ∀ ev ∈ pre, ev.op.isQuiet = true)
    ∨ (∃ (rc pc cnt : Obj) (n : Int) (reads : List Event) (kids : List Obj) (s1 : σ),
        (ForwardRef.callback H env component props ref s).log
            = ⟨.set props "ref" (.obj ref), .unit⟩ :: ⟨.get env.React "Children", .obj rc⟩ ::
              ⟨.get props "children", .obj pc⟩ :: ⟨.call rc "count" [.obj pc], .obj cnt⟩ ::
              ⟨.int cnt, .int n⟩ ::
              (reads ++ (JSX H env component (.obj props) (kids.map Val.obj) s1).log)
        ∧ (ForwardRef.callback H env component props ref s).out
            = (JSX H env component (.obj props) (kids.map Val.obj) s1).out
        ∧ (ForwardRef.callback H env component props ref s).state
            = (JSX H env component (.obj props) (kids.map Val.obj) s1).state
        ∧ (∀ ev ∈ reads, ev.op.isQuiet = true)
        ∧ (n = 0 → kids = [] ∧ reads = [])
        ∧ (n = 1 → ∃ c, kids = [c] ∧ reads = [⟨.get props "children", .obj c⟩])
        ∧ (n ≠ 0 → n ≠ 1 → kids.length = n.toNat
            ∧ ∃ cs : List Obj, cs.length = kids.length ∧ reads = childReads props 0 cs kids)) := by
  simp only [ForwardRef.callback, bind_eq_andThen, jsSet, jsGet, jsCall, jsInt]
  rw [perform_andThen]
  rcases H.set props "ref" (.obj ref) s with ⟨p | _, s1⟩
  · exact Or.inl ⟨p, _, [], rfl, rfl, by simp⟩
  simp only
  rw [perform_andThen]
  rcases H.get env.React "Children" s1 with ⟨p | rc, s2⟩
  · exact Or.inl ⟨p, _, _, rfl, rfl, by simp [HostOp.isQuiet]⟩
  simp only
  rw [perform_andThen]
  rcases H.get props "children" s2 with ⟨p | pc, s3⟩
  · exact Or.inl ⟨p, _, _, rfl, rfl, by simp [HostOp.isQuiet]⟩
  simp only
  rw [perform_andThen]
  rcases H.call rc "count" [.obj pc] s3 with ⟨p | cnt, s4⟩
  · exact Or.inl ⟨p, _, _, rfl, rfl, by simp [HostOp.isQuiet]⟩
  simp only
  rw [perform_andThen]
  rcases H.int cnt s4 with ⟨p | n, s5⟩
  · exact Or.inl ⟨p, _, _, rfl, rfl, by simp [HostOp.isQuiet]⟩
  simp only
  by_cases h0 : n = 0
  · simp only [h0, if_true]
    exact Or.inr ⟨rc, pc, cnt, 0, [], [], s5, rfl, rfl, rfl, by simp, fun _ => ⟨rfl, rfl⟩,
      fun h => absurd h (by decide), fun h => absurd rfl h⟩
  by_cases h1 : n = 1
  · simp only [h1, if_true, one_ne_zero, if_false]
    rw [perform_andThen]
    rcases H.get props "children" s5 with ⟨p | c, s6⟩
    · exact Or.inl ⟨p, _, _, rfl, rfl, by simp [HostOp.isQuiet]⟩
    · exact Or.inr ⟨rc, pc, cnt, 1, [⟨.get props "children", .obj c⟩], [c], s6, rfl, rfl, rfl,
        by simp [HostOp.isQuiet], fun h => absurd h (by decide), fun _ => ⟨c, rfl, rfl⟩, fun _ h => absurd rfl h⟩
  simp only [h0, h1, if_false]
  rcases collect_run H props n.toNat 0 [] s5 with ⟨p, hout, hq⟩ | ⟨cs, es, hcs, hes, hout, hlog⟩
  · refine Or.inl ⟨p, _, _, ?_, rfl, ?_⟩
    · simp only [M.andThen]
      rcases hc : ForwardRef.collect H props n.toNat 0 [] s5 with ⟨o, s6, l⟩
      rw [hc] at hout
      simp only at hout
      subst hout
      rfl
    · intro ev hev
      simp only [List.mem_cons] at hev
      rcases hev with rfl | rfl | rfl | rfl | hev
      · rfl
      · rfl
      · rfl
      · rfl
      · simp only [M.andThen] at hev
        rcases hc : ForwardRef.collect H props n.toNat 0 [] s5 with ⟨o, s6, l⟩
        rw [hc] at hout hq hev
        simp only at hout hq hev
        subst hout
        exact hq ev hev
  · rcases hc : ForwardRef.collect H props n.toNat 0 [] s5 with ⟨o, s6, l⟩
    rw [hc] at hout hlog
    simp only at hout hlog
    subst hout
    refine Or.inr ⟨rc, pc, cnt, n, childReads props 0 cs es, es, s6, ?_, ?_, ?_,
      childReads_quiet props cs es 0, fun h => absurd h h0, fun h => absurd h h1, fun _ _ => ⟨hes, cs, by rw [hcs, hes], rfl⟩⟩
    · simp only [M.andThen, hc, hlog, List.nil_append]
    · simp only [M.andThen, hc, List.nil_append]
    · simp only [M.andThen, hc, List.nil_append]

theorem JSX_log (env : Env) (component props : Val) (children : List Val) (s : σ) :
    ∃ rep, (JSX H env component props children s).log
      = [⟨.call env.React "createElement" (component :: env.SToMap props :: children), rep⟩] := by
  rw [JSX_eq_call]
  simp only [jsCall, M.perform]
  rcases H.call env.React "createElement" (component :: env.SToMap props :: children) s
    with ⟨_ | _, _⟩
  · exact ⟨_, rfl⟩
  · exact ⟨_, rfl⟩

theorem callback_log_shape (env : Env) (component : Val) (props ref : Obj) (s : σ) :
    ∃ (rep : Reply) (rest : List Event),
      (ForwardRef.callback H env component props ref s).log
          = ⟨.set props "ref" (.obj ref), rep⟩ :: rest
      ∧ (∀ ev ∈ rest, ∀ o key v, ev.op ≠ .set o key v) := by
  have hnoset : ∀ ev : Event, ev.op.isQuiet = true → ∀ o key v, ev.op ≠ .set o key v := by
    intro ev hev o key v h
    rw [h] at hev
    simp [HostOp.isQuiet] at hev
  rcases callback_run H env component props ref s with
    ⟨p, rep, pre, _, hlog, hq⟩ |
    ⟨rc, pc, cnt, n, reads, kids, s1, hlog, _, _, hq, _, _, _⟩
  · exact ⟨rep, pre, hlog, fun ev hev => hnoset ev (hq ev hev)⟩
  · obtain ⟨rep, hjsx⟩ := JSX_log H env component (.obj props) (kids.map Val.obj) s1
    refine ⟨.unit, _, hlog, ?_⟩
    intro ev hev
    simp only [List.mem_cons, List.mem_append] at hev
    rw [hjsx] at hev
    rcases hev with rfl | rfl | rfl | rfl | hev | hev
    · exact fun _ _ _ h => HostOp.noConfusion h
    · exact fun _ _ _ h => HostOp.noConfusion h
    · exact fun _ _ _ h => HostOp.noConfusion h
    · exact fun _ _ _ h => HostOp.noConfusion h
    · exact hnoset ev (hq ev hev)
    · simp only [List.mem_singleton] at hev
      subst hev
      exact fun _ _ _ h => HostOp.noConfusion h

theorem callback_first_event (env : Env) (component : Val) (props ref : Obj) (s : σ) :
    (ForwardRef.callback H env component props ref s).log.head?
      = some ⟨.set props "ref" (.obj ref),
          match (H.set props "ref" (.obj ref) s).1 with
          | .ok _ => .unit
          | .error p => .threw p⟩ := by
  simp only [ForwardRef.callback, bind_eq_andThen, jsSet]
  rw [perform_andThen]
  rcases H.set props "ref" (.obj ref) s with ⟨p | u, s1⟩ <;> rfl

theorem collect_answers (props : Obj) :
    ∀ (cs es : List Obj) (i : Int) (acc : List Val) (s s2 : σ),
      AnswersChildren H props i s cs es s2 →
      ForwardRef.collect H props es.length i acc s
        = ⟨.ok (acc ++ es.map Val.obj), s2, childReads props i cs es⟩ := by
  intro cs
  induction cs with
  | nil =>
    intro es i acc s s2 h
    cases es with
    | nil =>
      simp only [AnswersChildren] at h
      subst h
      simp [ForwardRef.collect, pure_eq_ret, M.ret, childReads]
    | cons e es => simp [AnswersChildren] at h
  | cons c cs ih =>
    intro es i acc s s2 h
    cases es with
    | nil => simp [AnswersChildren] at h
    | cons e es =>
      simp only [AnswersChildren] at h
      obtain ⟨sa, sb, hget, hidx, hrest⟩ := h
      simp only [List.length_cons, ForwardRef.collect, bind_eq_andThen, jsGet, jsIndex]
      rw [perform_andThen]
      simp only [hget]
      rw [perform_andThen]
      simp only [hidx]
      rw [ih es (i + 1) _ sb s2 hrest]
      simp [childReads]

theorem callback_dispatch (env : Env) (component : Val) (props ref : Obj)
    (s0 s1 s2 s3 s4 s5 s6 : σ) (rc pc cnt : Obj) (n : Int) (kids : List Obj)
    (reads : List Event)
    (hset : H.set props "ref" (.obj ref) s0 = (.ok (), s1))
    (hrc : H.get env.React "Children" s1 = (.ok rc, s2))
    (hpc : H.get props "children" s2 = (.ok pc, s3))
    (hcnt : H.call rc "count" [.obj pc] s3 = (.ok cnt, s4))
    (hn : H.int cnt s4 = (.ok n, s5))
    (hkids : GivesChildren H props n s5 kids reads s6) :
    ForwardRef.callback H env component props ref s0 =
      ⟨(JSX H env component (.obj props) (kids.map Val.obj) s6).out,
        (JSX H env component (.obj props) (kids.map Val.obj) s6).state,
        ⟨.set props "ref" (.obj ref), .unit⟩ :: ⟨.get env.React "Children", .obj rc⟩ ::
          ⟨.get props "children", .obj pc⟩ :: ⟨.call rc "count" [.obj pc], .obj cnt⟩ ::
          ⟨.int cnt, .int n⟩ ::
          (reads ++ (JSX H env component (.obj props) (kids.map Val.obj) s6).log)⟩ := by
  simp only [ForwardRef.callback, bind_eq_andThen, jsSet, jsGet, jsCall, jsInt]
  rw [perform_andThen]
  simp only [hset]
  rw [perform_andThen]
  simp only [hrc]
  rw [perform_andThen]
  simp only [hpc]
  rw [perform_andThen]
  simp only [hcnt]
  rw [perform_andThen]
  simp only [hn]
  rcases hkids with ⟨h0, hk, hr, hs⟩ | ⟨h1, c, hget, hk, hr⟩ | ⟨h0, h1, hlen, cs, hans, hr⟩
  · subst h0 hk hr hs
    simp
  · subst h1 hk hr
    simp only [one_ne_zero, if_false, if_true]
    rw [perform_andThen]
    simp only [hget]
    simp
  · simp only [h0, h1, if_false]
    rw [← hlen]
    simp only [M.andThen, collect_answers H props cs kids 0 [] s5 s6 hans, hr,
      List.nil_append]

/-- C5: let the host answer the operations of the function literal that
`ForwardRef` registers before its dispatch: the `Set` of `"ref"`, the reads
that give the count `n` of `props.children`, and the reads of the children
`kids` for that count (none for `n = 0`; `props.children` itself for `n = 1`;
`props.children[0]`, ..., `props.children[n-1]` in that order for `n > 1`).
Then the function literal ends by calling `createElement` on `React`, once
and as its last host operation, with `component`, `SToMap(props)` and then
`kids` in their order, and it ends as that call ends.  The call receives
`2 + len(kids)` arguments: 2 when `n = 0`, 3 when `n = 1`, the third being
what `props.children` gave, and `2 + n` when `n > 1`. -/
theorem ForwardRef_callback_argument_count (env : Env) (component : Val) (props ref : Obj)
    (s0 s1 s2 s3 s4 s5 s6 : σ) (rc pc cnt : Obj) (n : Int) (kids : List Obj)
    (reads : List Event)
    (hset : H.set props "ref" (.obj ref) s0 = (.ok (), s1))
    (hrc : H.get env.React "Children" s1 = (.ok rc, s2))
    (hpc : H.get props "children" s2 = (.ok pc, s3))
    (hcnt : H.call rc "count" [.obj pc] s3 = (.ok cnt, s4))
    (hn : H.int cnt s4 = (.ok n, s5))
    (hkids : GivesChildren H props n s5 kids reads s6) :
    ForwardRef.callback H env component props ref s0 =
      (match H.call env.React "createElement"
          (component :: env.SToMap (.obj props) :: kids.map Val.obj) s6 with
        | (.ok el, s7) =>
          ⟨.ok el, s7,
            [⟨.set props "ref" (.obj ref), .unit⟩, ⟨.get env.React "Children", .obj rc⟩,
              ⟨.get props "children", .obj pc⟩, ⟨.call rc "count" [.obj pc], .obj cnt⟩,
              ⟨.int cnt, .int n⟩]
            ++ reads
            ++ [⟨.call env.React "createElement"
                  (component :: env.SToMap (.obj props) :: kids.map Val.obj), .obj el⟩]⟩
        | (.error p, s7) =>
          ⟨.panic p, s7,
            [⟨.set props "ref" (.obj ref), .unit⟩, ⟨.get env.React "Children", .obj rc⟩,
              ⟨.get props "children", .obj pc⟩, ⟨.call rc "count" [.obj pc], .obj cnt⟩,
              ⟨.int cnt, .int n⟩]
            ++ reads
            ++ [⟨.call env.React "createElement"
                  (component :: env.SToMap (.obj props) :: kids.map Val.obj), .threw p⟩]⟩)
    ∧ createCalls env (ForwardRef.callback H env component props ref s0).log
        = [component :: env.SToMap (.obj props) :: kids.map Val.obj]
    ∧ (component :: env.SToMap (.obj props) :: kids.map Val.obj).length = 2 + kids.length
    ∧ (n = 0 → component :: env.SToMap (.obj props) :: kids.map Val.obj
        = [component, env.SToMap (.obj props)])
    ∧ (n = 1 → ∃ c, H.get props "children" s5 = (.ok c, s6)
        ∧ component :: env.SToMap (.obj props) :: kids.map Val.obj
          = [component, env.SToMap (.obj props), .obj c])
    ∧ (1 < n →
        ((component :: env.SToMap (.obj props) :: kids.map Val.obj).length : Int) = 2 + n
        ∧ ∃ cs, AnswersChildren H props 0 s5 cs kids s6) := by
  have hrun := callback_dispatch H env component props ref s0 s1 s2 s3 s4 s5 s6 rc pc cnt n
    kids reads hset hrc hpc hcnt hn hkids
  have hquiet : ∀ ev ∈ reads, ev.op.isQuiet = true := by
    rcases hkids with ⟨_, _, hr, _⟩ | ⟨_, c, _, _, hr⟩ | ⟨_, _, _, cs, _, hr⟩
    · subst hr
      simp
    · subst hr
      simp [HostOp.isQuiet]
    · subst hr
      exact childReads_quiet props cs kids 0
  have hlead : ∀ l : List Event,
      createCalls env (⟨.set props "ref" (.obj ref), .unit⟩ ::
        ⟨.get env.React "Children", .obj rc⟩ :: ⟨.get props "children", .obj pc⟩ ::
        ⟨.call rc "count" [.obj pc], .obj cnt⟩ :: ⟨.int cnt, .int n⟩ :: l)
      = createCalls env l := by
    intro l
    simp [createCalls]
  refine ⟨?_, ?_, ?_, ?_, ?_, ?_⟩
  · rw [hrun, JSX_eq_call]
    simp only [jsCall, M.perform]
    rcases H.call env.React "createElement"
        (component :: env.SToMap (.obj props) :: kids.map Val.obj) s6 with ⟨_ | _, _⟩ <;> simp
  · obtain ⟨rep, hjsx⟩ := JSX_log H env component (.obj props) (kids.map Val.obj) s6
    rw [hrun]
    simp only
    rw [hjsx, hlead, createCalls_append, createCalls_quiet env reads hquiet]
    simp [createCalls]
  · simp
    omega
  · intro h0
    rcases hkids with ⟨_, hk, _, _⟩ | ⟨h1, _⟩ | ⟨hne, _⟩
    · subst hk
      rfl
    · omega
    · exact absurd h0 hne
  · intro h1
    rcases hkids with ⟨h0, _⟩ | ⟨_, c, hget, hk, _⟩ | ⟨_, hne, _⟩
    · omega
    · subst hk
      exact ⟨c, hget, rfl⟩
    · exact absurd h1 hne
  · intro hlt
    rcases hkids with ⟨h0, _⟩ | ⟨h1, _⟩ | ⟨_, _, hlen, cs, hans, _⟩
    · omega
    · omega
    · refine ⟨?_, cs, hans⟩
      simp only [List.length_cons, List.length_map, hlen]
      push_cast
      rw [Int.toNat_of_nonneg (by omega)]
      omega

/-- An example of C5 on the small host: the props 10, whose `children` counts
two children, 13 and 14; `createElement` is called with four arguments. -/
theorem ForwardRef_callback_argument_count_witness :
    createCalls demoEnv (ForwardRef.callback demoHost demoEnv (.str "div") 10 11 0).log
      = [[.str "div", .obj 10, .obj 13, .obj 14]] :=
  (ForwardRef_callback_argument_count demoHost demoEnv (.str "div") 10 11
    0 1 2 3 4 5 9 9 12 15 2 [13, 14] (childReads 10 0 [12, 12] [13, 14])
    rfl rfl rfl rfl rfl
    (Or.inr (Or.inr ⟨by decide, by decide, rfl, [12, 12],
      ⟨6, 7, rfl, rfl, 8, 9, rfl, rfl, rfl⟩, rfl⟩))).2.1

/-- C6: the first host operation of the function literal that `ForwardRef`
registers is `props.Set("ref", ref)`, answered as the host answers it, before
the count of the children is read and before anything is dispatched; no later
operation writes a property; and if that `Set` throws, nothing else is done.
When the host answers the `Set`, the reads that give the count `n` and the
reads of the children `kids` for that count, whichever of the three branches
`n` selects, the function literal then runs `JSX` with the given `component`,
with that same object `props` as the props and with `kids` as the children,
and ends as `JSX` ends. -/
theorem ForwardRef_callback_sets_ref_first (env : Env) (component : Val)
    (props ref : Obj) (s0 : σ) :
    (∃ rest : List Event,
      (ForwardRef.callback H env component props ref s0).log
          = ⟨.set props "ref" (.obj ref),
              match (H.set props "ref" (.obj ref) s0).1 with
              | .ok _ => .unit
              | .error p => .threw p⟩ :: rest
      ∧ (∀ ev ∈ rest, ∀ o key v, ev.op ≠ .set o key v))
    ∧ (∀ (p : PanicVal) (s1 : σ), H.set props "ref" (.obj ref) s0 = (.error p, s1) →
        ForwardRef.callback H env component props ref s0
          = ⟨.panic p, s1, [⟨.set props "ref" (.obj ref), .threw p⟩]⟩)
    ∧ (∀ (s1 s2 s3 s4 s5 s6 : σ) (rc pc cnt : Obj) (n : Int) (kids : List Obj)
        (reads : List Event),
        H.set props "ref" (.obj ref) s0 = (.ok (), s1) →
        H.get env.React "Children" s1 = (.ok rc, s2) →
        H.get props "children" s2 = (.ok pc, s3) →
        H.call rc "count" [.obj pc] s3 = (.ok cnt, s4) →
        H.int cnt s4 = (.ok n, s5) →
        GivesChildren H props n s5 kids reads s6 →
        (ForwardRef.callback H env component props ref s0).log
            = ⟨.set props "ref" (.obj ref), .unit⟩ :: ⟨.get env.React "Children", .obj rc⟩ ::
              ⟨.get props "children", .obj pc⟩ :: ⟨.call rc "count" [.obj pc], .obj cnt⟩ ::
              ⟨.int cnt, .int n⟩ ::
              (reads ++ (JSX H env component (.obj props) (kids.map Val.obj) s6).log)
        ∧ (ForwardRef.callback H env component props ref s0).out
            = (JSX H env component (.obj props) (kids.map Val.obj) s6).out
        ∧ (ForwardRef.callback H env component props ref s0).state
            = (JSX H env component (.obj props) (kids.map Val.obj) s6).state) := by
  refine ⟨?_, ?_, ?_⟩
  · obtain ⟨rep, rest, hlog, hnoset⟩ := callback_log_shape H env component props ref s0
    have hhead := callback_first_event H env component props ref s0
    rw [hlog] at hhead
    simp only [List.head?_cons, Option.some.injEq, Event.mk.injEq, true_and] at hhead
    exact ⟨rest, by rw [hlog, hhead], hnoset⟩
  · intro p s1 hset
    simp only [ForwardRef.callback, bind_eq_andThen, jsSet]
    rw [perform_andThen]
    simp only [hset]
  · intro s1 s2 s3 s4 s5 s6 rc pc cnt n kids reads hset hrc hpc hcnt hn hkids
    rw [callback_dispatch H env component props ref s0 s1 s2 s3 s4 s5 s6 rc pc cnt n
      kids reads hset hrc hpc hcnt hn hkids]
    exact ⟨rfl, rfl, rfl⟩

/-- An example of C6 on the small host: the props 40, whose `children`, 41,
counts one child; the function literal ends as `JSX` ends with that child. -/
theorem ForwardRef_callback_sets_ref_first_witness :
    (ForwardRef.callback demoHost demoEnv (.str "div") 40 11 0).out
      = (JSX demoHost demoEnv (.str "div") (.obj 40) [.obj 41] 6).out :=
  ((ForwardRef_callback_sets_ref_first demoHost demoEnv (.str "div") 40 11 0).2.2
    1 2 3 4 5 6 9 41 42 1 [41] [⟨.get 40 "children", .obj 41⟩]
    rfl rfl rfl rfl rfl (Or.inr (Or.inl ⟨rfl, 41, rfl, rfl, rfl⟩))).2.1

/-- An example on the small host, where `props.children` counts no child:
`createElement` is called with two arguments. -/
theorem ForwardRef_callback_no_children :
    ForwardRef.callback demoHost demoEnv (.str "div") 30 11 0 =
      ⟨.ok 16, 6,
        [⟨.set 30 "ref" (.obj 11), .unit⟩, ⟨.get 1 "Children", .obj 9⟩,
         ⟨.get 30 "children", .obj 31⟩, ⟨.call 9 "count" [.obj 31], .obj 32⟩,
         ⟨.int 32, .int 0⟩,
         ⟨.call 1 "createElement" [.str "div", .obj 30], .obj 16⟩]⟩ :=
  rfl

/-- An example on the small host, where `props.children` counts one child:
`createElement` is called with three arguments, the third being
`props.children`. -/
theorem ForwardRef_callback_one_child :
    ForwardRef.callback demoHost demoEnv (.str "div") 40 11 0 =
      ⟨.ok 16, 7,
        [⟨.set 40 "ref" (.obj 11), .unit⟩, ⟨.get 1 "Children", .obj 9⟩,
         ⟨.get 40 "children", .obj 41⟩, ⟨.call 9 "count" [.obj 41], .obj 42⟩,
         ⟨.int 42, .int 1⟩, ⟨.get 40 "children", .obj 41⟩,
         ⟨.call 1 "createElement" [.str "div", .obj 40, .obj 41], .obj 16⟩]⟩ :=
  rfl

/-- An example on the small host, where `props.children` counts two
children: the function literal of `ForwardRef("div")`, applied to the props
10 and the ref 11, returns the element 16 after these host operations. -/
theorem ForwardRef_callback_two_children :
    ForwardRef.callback demoHost demoEnv (.str "div") 10 11 0 =
      ⟨.ok 16, 10,
        [⟨.set 10 "ref" (.obj 11), .unit⟩, ⟨.get 1 "Children", .obj 9⟩,
         ⟨.get 10 "children", .obj 12⟩, ⟨.call 9 "count" [.obj 12], .obj 15⟩,
         ⟨.int 15, .int 2⟩,
         ⟨.get 10 "children", .obj 12⟩, ⟨.index 12 0, .obj 13⟩,
         ⟨.get 10 "children", .obj 12⟩, ⟨.index 12 1, .obj 14⟩,
         ⟨.call 1 "createElement" [.str "div", .obj 10, .obj 13, .obj 14], .obj 16⟩]⟩ :=
  rfl

/-- `ForwardRef(component)` performs one host operation: it calls `forwardRef`
on `React` with the function literal that captures `component`. -/
theorem ForwardRef_registers_callback (env : Env) (component : Val) (s : σ) :
    (ForwardRef H env component s).log.map Event.op
      = [.call env.React "forwardRef" [.forwardRefFn component]] := by
  simp only [ForwardRef, jsCall, M.perform]
  rcases H.call env.React "forwardRef" [.forwardRefFn component] s with ⟨_ | _, _⟩ <;> rfl

end Theorems

end react
